import Mathlib

/-!
Verification development for the flight-fare scraper `Webscrapebot.py`.

The pure computational core of the program is embedded shallowly:

* `parse_money`, `parse_points`, `calculate_cpp` — the text-parsing and
  value-ratio helpers.  Python strings become `List Char`; Python `None`
  becomes `Option.none`; a Python exception becomes an `Option.none`
  result of the embedded function.  Python `float` values are modelled by
  exact rationals (`ℚ`); the decimal literals appearing in the program are
  represented exactly, so the model agrees with CPython up to binary
  floating-point representation error, which is noted where relevant.
* `processNode` / `extractFlights` — the fare-card extraction loop of
  `scrape_choose_flights` (lines 347–385), over an abstract document given
  as a list of `FareNode` records (the per-node results of the CSS
  `select_one` queries, an external collaborator).
* `dedupe` — the deduplication loop of `main` (lines 429–436).
* `bestValue` — the best-value selection of `main` (lines 473–476).
* `rate_limit` — `BrowserManager.rate_limit` (lines 277–290).  The clock
  is an explicit `ℚ` argument; the two possible exceptions
  (`ZeroDivisionError` from a zero divisor, `ValueError` from
  `time.sleep` on a negative duration) are modelled by a `none` first
  component, with the state updated exactly as far as the Python code
  got before raising.
* `retryRun` — the retry loop of `main` (lines 402–426), over an abstract
  sequence of per-attempt fetch outcomes covering the cases the loop
  handles (timeout / block marker / driver error / rendered document).
-/

/-! ### Character helpers -/

/-- Whitespace characters stripped by Python `str.strip()` (ASCII range). -/
def pyIsSpace (c : Char) : Bool :=
  c == ' ' || c == '\t' || c == '\n' || c == '\r' || c == '\x0b' || c == '\x0c'

/-- Python `str.strip()`: drop whitespace from both ends. -/
def pyStrip (l : List Char) : List Char :=
  ((l.dropWhile pyIsSpace).reverse.dropWhile pyIsSpace).reverse

/-- Python `str.lower()` on the ASCII letters (the only case the scraped
text exercises). -/
def asciiLower (c : Char) : Char :=
  if 'A' ≤ c ∧ c ≤ 'Z' then Char.ofNat (c.toNat + 32) else c

/-- Numeric value of a list of decimal digit characters, most significant
first (the value of `int(...)` on a digits-only string). -/
def natOfDigits (l : List Char) : ℕ :=
  l.foldl (fun n c => 10 * n + (c.toNat - '0'.toNat)) 0

/-! ### Python `float()` literal grammar

`parse_points` feeds arbitrary text into `int(float(text) * 1000)`.  We
model the CPython `float()` grammar exactly on finite decimal literals:
optional sign, digit parts with single embedded underscores, optional
fraction and exponent.  The value is returned as an exact pair
`(mantissa, exponent)` with value `mantissa · 10 ^ exponent`, so that the
subsequent truncation can be carried out in integer arithmetic.
`"inf"`/`"infinity"`/`"nan"` are accepted by `float()` but make the
enclosing `int(...)` raise (`OverflowError`/`ValueError`), so the composite
fails on them; the model returns `none` for them directly. -/

/-- Consume a maximal Python digit-part (digits with single embedded
underscores).  Returns the digits (underscores dropped) and the rest. -/
def digitRun : List Char → List Char × List Char
  | [] => ([], [])
  | c :: '_' :: c2 :: cs =>
    if c.isDigit then
      if c2.isDigit then
        let r := digitRun (c2 :: cs)
        (c :: r.1, r.2)
      else ([c], '_' :: c2 :: cs)
    else ([], c :: '_' :: c2 :: cs)
  | c :: cs =>
    if c.isDigit then
      let r := digitRun cs
      (c :: r.1, r.2)
    else ([], c :: cs)

/-- Optional sign: returns (isNegative, rest). -/
def pySign : List Char → Bool × List Char
  | '-' :: r => (true, r)
  | '+' :: r => (false, r)
  | r => (false, r)

/-- Optional exponent suffix `e[±]digits` after a mantissa `(m, e)`;
the input has already been lowercased.  The whole rest must be consumed. -/
def parseExp (m e : ℤ) : List Char → Option (ℤ × ℤ)
  | [] => some (m, e)
  | 'e' :: rest =>
    let sg := pySign rest
    let r := digitRun sg.2
    if r.1 = [] ∨ r.2 ≠ [] then none
    else some (m, e + (if sg.1 then -(natOfDigits r.1 : ℤ) else (natOfDigits r.1 : ℤ)))
  | _ => none

/-- Unsigned decimal literal: `digits [. [digits]] [exp]` or `. digits [exp]`. -/
def parseDecimal : List Char → Option (ℤ × ℤ)
  | '.' :: rest =>
    let f := digitRun rest
    if f.1 = [] then none
    else parseExp (natOfDigits f.1) (-(f.1.length : ℤ)) f.2
  | l =>
    let d := digitRun l
    if d.1 = [] then none
    else
      match d.2 with
      | '.' :: rest =>
        let f := digitRun rest
        parseExp ((natOfDigits d.1) * 10 ^ f.1.length + natOfDigits f.1) (-(f.1.length : ℤ)) f.2
      | r => parseExp (natOfDigits d.1) 0 r

/-- Python `float(s)` on a finite decimal literal, as an exact value
`m · 10 ^ e`; `none` models a `ValueError` (and the `inf`/`nan` cases on
which the enclosing `int()` raises). -/
def pyFloat (s : List Char) : Option (ℤ × ℤ) :=
  let t := (pyStrip s).map asciiLower
  let sg := pySign t
  if sg.2 = ['i', 'n', 'f'] ∨ sg.2 = ['i', 'n', 'f', 'i', 'n', 'i', 't', 'y'] ∨
      sg.2 = ['n', 'a', 'n'] then
    none
  else
    (parseDecimal sg.2).map (fun p => (if sg.1 then -p.1 else p.1, p.2))

/-- Python `int(x)` (truncation towards zero) of the exact value `m · 10 ^ e`. -/
def truncPow10 (m e : ℤ) : ℤ :=
  if 0 ≤ e then m * 10 ^ e.toNat else Int.tdiv m (10 ^ (-e).toNat)

/-! ### `parse_points` (Webscrapebot.py lines 126–134) -/

/-- Suffix of the input starting at its first decimal digit, if any
(the leftmost position at which the regex `(\d{1,3}(?:,\d{3})*)` can match). -/
def findFirstDigit : List Char → Option (List Char)
  | [] => none
  | c :: cs => if c.isDigit then some (c :: cs) else findFirstDigit cs

/-- Greedy `\d{1,3}`: up to three leading digits (the head is known to be a
digit).  Returns (digits taken, rest). -/
def splitDigits3 : List Char → List Char × List Char
  | [] => ([], [])
  | [a] => ([a], [])
  | [a, b] => if b.isDigit then ([a, b], []) else ([a], [b])
  | a :: b :: c :: rest =>
    if b.isDigit then
      if c.isDigit then ([a, b, c], rest) else ([a, b], c :: rest)
    else ([a], b :: c :: rest)

/-- Greedy `(?:,\d{3})*`: consume groups of a comma followed by exactly
three digits, returning the digits without the commas. -/
def commaGroups : List Char → List Char
  | ',' :: a :: b :: c :: rest =>
    if a.isDigit ∧ b.isDigit ∧ c.isDigit then a :: b :: c :: commaGroups rest
    else []
  | _ => []

/-- Group 1 of `re.search(r"(\d{1,3}(?:,\d{3})*)", t)`, commas removed. -/
def pointsToken (t : List Char) : Option (List Char) :=
  (findFirstDigit t).map (fun r =>
    let p := splitDigits3 r
    p.1 ++ commaGroups p.2)

/-- `parse_points` (lines 126–134).  `none` input models Python `None`;
a `none` result models an uncaught exception inside the function
(`float()` raising `ValueError`, or `int()` on `inf`/`nan`). -/
def parse_points : Option (List Char) → Option ℤ
  | none => some 0
  | some s =>
    if s = [] then some 0
    else
      let t := (pyStrip s).map asciiLower
      if 'k' ∈ t then
        (pyFloat (t.filter (fun c => !(c == 'k' || c == ',')))).map
          (fun p => truncPow10 p.1 (p.2 + 3))
      else
        some (match pointsToken t with
              | some ds => (natOfDigits ds : ℤ)
              | none => 0)

/-! ### `parse_money` (Webscrapebot.py lines 119–124) -/

/-- Outcome of the regex/`float` pipeline of `parse_money`, kept at the
character/ℕ level so that it is computable by the kernel. -/
inductive MoneyRes
  | fail : MoneyRes
  | noTok : MoneyRes
  | tok (units : ℕ) (frac : List Char) : MoneyRes
deriving DecidableEq

/-- Suffix of the input starting at its first digit-or-comma character:
group 1 of `re.search(r"\$?\s*([\d,]+(?:\.\d{1,2})?)", s)` starts exactly
there, since `\$?` and `\s*` can consume only a dollar sign and
whitespace. -/
def findFirstMoneyChar : List Char → Option (List Char)
  | [] => none
  | c :: cs => if c.isDigit ∨ c = ',' then some (c :: cs) else findFirstMoneyChar cs

/-- Greedy `(?:\.\d{1,2})?` after the `[\d,]+` run. -/
def moneyFrac : List Char → List Char
  | '.' :: a :: b :: _ => if a.isDigit then (if b.isDigit then [a, b] else [a]) else []
  | ['.', a] => if a.isDigit then [a] else []
  | _ => []

/-- Token extraction of `parse_money`: `.fail` models `float("")` raising
`ValueError` (an all-comma token), `.noTok` the no-match case (result 0.0),
`.tok u f` a parsed token with integer part `u` and fraction digits `f`. -/
def parse_money_core : Option (List Char) → MoneyRes
  | none => .noTok
  | some s =>
    if s = [] then .noTok
    else
      match findFirstMoneyChar s with
      | none => .noTok
      | some r =>
        let tokRun := r.takeWhile (fun c => c.isDigit || c == ',')
        let rest := r.drop tokRun.length
        let frac := moneyFrac rest
        let digits := tokRun.filter Char.isDigit
        if digits = [] ∧ frac = [] then .fail
        else .tok (natOfDigits digits) frac

/-- Rational value of a `MoneyRes` (the `float` conversion). -/
def moneyVal : MoneyRes → Option ℚ
  | .fail => none
  | .noTok => some 0
  | .tok n frac => some ((n : ℚ) + (natOfDigits frac : ℚ) / 10 ^ frac.length)

/-- `parse_money` (lines 119–124).  `none` result models the uncaught
`ValueError` from `float("")` when the matched token is all commas. -/
def parse_money (t : Option (List Char)) : Option ℚ :=
  moneyVal (parse_money_core t)

/-! ### `calculate_cpp` (Webscrapebot.py lines 136–138) -/

/-- Python `round()` to an integer: round half to even. -/
def roundHalfEven (q : ℚ) : ℤ :=
  if q - ⌊q⌋ < 1 / 2 then ⌊q⌋
  else if 1 / 2 < q - ⌊q⌋ then ⌊q⌋ + 1
  else if ⌊q⌋ % 2 = 0 then ⌊q⌋ else ⌊q⌋ + 1

/-- Python `round(q, 2)`. -/
def round2 (q : ℚ) : ℚ :=
  (roundHalfEven (q * 100) : ℚ) / 100

/-- `calculate_cpp` (lines 136–138): cents per point, with exact rational
arithmetic in place of binary floating point. -/
def calculate_cpp (cash : ℚ) (points : ℤ) (taxes : ℚ) : ℚ :=
  if 0 < points then round2 ((cash - taxes) / (points : ℚ) * 100) else 0

/-! ### Extraction loop of `scrape_choose_flights` (lines 347–385) -/

/-- One fare-card node of the rendered document, as seen through the
`select_one` queries: each field is the stripped text of the matched
element, or `none` when the selector matched nothing. -/
structure FareNode where
  dateText : Option (List Char)
  pointsText : Option (List Char)
  cashText : Option (List Char)
  depText : Option (List Char)
  arrText : Option (List Char)
  fnText : Option (List Char)
  rawText : List Char
deriving DecidableEq

/-- The `FlightData` dataclass (lines 74–84). -/
structure FlightData where
  flight_number : List Char
  departure_time : List Char
  arrival_time : List Char
  points_required : ℤ
  cash_price_usd : ℚ
  taxes_fees_usd : ℚ
  cpp : ℚ
  raw_text : List Char
deriving DecidableEq

/-- Fallback flight identifier `f"AA_{i}"`. -/
def aaName (i : ℕ) : List Char :=
  'A' :: 'A' :: '_' :: Nat.toDigits 10 i

/-- One iteration of the extraction loop for the node at 1-based position
`i` among all fare-card nodes.  `none` covers the `continue` on a missing
date field, a parse exception swallowed by the per-node `except`, and the
retention filter `if cash or points`. -/
def processNode (taxes : ℚ) (i : ℕ) (b : FareNode) : Option FlightData :=
  match b.dateText with
  | none => none
  | some _ =>
    match parse_points (some (b.pointsText.getD [])),
        parse_money (some (b.cashText.getD [])) with
    | some points, some cash =>
      if cash ≠ 0 ∨ points ≠ 0 then
        some { flight_number := b.fnText.getD (aaName i)
               departure_time := b.depText.getD []
               arrival_time := b.arrText.getD []
               points_required := points
               cash_price_usd := cash
               taxes_fees_usd := taxes
               cpp := calculate_cpp cash points taxes
               raw_text := b.rawText.take 200 }
      else none
    | _, _ => none

/-- The extraction loop from 1-based index `i` on. -/
def extractFrom (taxes : ℚ) : ℕ → List FareNode → List FlightData
  | _, [] => []
  | i, b :: bs =>
    match processNode taxes i b with
    | some f => f :: extractFrom taxes (i + 1) bs
    | none => extractFrom taxes (i + 1) bs

/-- The full extraction `for i, button in enumerate(flight_buttons, 1)`. -/
def extractFlights (taxes : ℚ) (nodes : List FareNode) : List FlightData :=
  extractFrom taxes 1 nodes

/-! ### Deduplication (lines 429–436) -/

/-- The dedup key `(flight.points_required, flight.cash_price_usd,
flight.departure_time)`. -/
def flightKey (f : FlightData) : ℤ × ℚ × List Char :=
  (f.points_required, f.cash_price_usd, f.departure_time)

/-- The dedup loop with its `seen` set (modelled as a list of keys). -/
def dedupeAux : List (ℤ × ℚ × List Char) → List FlightData → List FlightData
  | _, [] => []
  | seen, f :: fs =>
    if flightKey f ∈ seen then dedupeAux seen fs
    else f :: dedupeAux (flightKey f :: seen) fs

/-- Deduplication of the extracted flights. -/
def dedupe (fs : List FlightData) : List FlightData :=
  dedupeAux [] fs

/-! ### Best-value selection (lines 473–476) -/

/-- Python `max(v :: vs, key=lambda x: x.cpp)`: keeps the current maximum
unless a strictly larger key appears, so the first maximal element wins. -/
def pyMaxBy (f : FlightData) (fs : List FlightData) : FlightData :=
  fs.foldl (fun best g => if best.cpp < g.cpp then g else best) f

/-- The best-value highlight: maximum-cpp element of the flights with
`cpp > 0`, or `none` when there is no such flight. -/
def bestValue (fs : List FlightData) : Option FlightData :=
  match fs.filter (fun f => decide (0 < f.cpp)) with
  | [] => none
  | v :: vs => some (pyMaxBy v vs)

/-! ### `BrowserManager.rate_limit` (lines 277–290) -/

/-- The mutable rate-limiter fields of `BrowserManager`. -/
structure RLState where
  request_count : ℕ
  last_request_time : ℚ
deriving DecidableEq

/-- The divisor `config.requests_per_hour - self.request_count + 1`
appearing in the sleep-duration computation, where `c` is the value of
`self.request_count` after the initial increment. -/
def rl_divisor (cap c : ℕ) : ℤ :=
  (cap : ℤ) - (c : ℤ) + 1

/-- One call to `rate_limit` at clock reading `now`.  The first component
is `some sleepTime` when the call returns normally (sleeping for
`sleepTime` seconds, 0 when it did not sleep) and `none` when it raises
(`ZeroDivisionError` when the divisor is zero, `ValueError` from
`time.sleep` on a negative duration).  The second component is the state
after the call: a raising call has already incremented `request_count`
but never reaches the reset of `request_count`/`last_request_time`. -/
def rate_limit (cap : ℕ) (s : RLState) (now : ℚ) : Option ℚ × RLState :=
  if cap < s.request_count + 1 then
    if now - s.last_request_time < 3600 then
      if rl_divisor cap (s.request_count + 1) = 0 then
        (none, ⟨s.request_count + 1, s.last_request_time⟩)
      else if (3600 - (now - s.last_request_time)) / (rl_divisor cap (s.request_count + 1) : ℚ) < 0 then
        (none, ⟨s.request_count + 1, s.last_request_time⟩)
      else
        (some ((3600 - (now - s.last_request_time)) / (rl_divisor cap (s.request_count + 1) : ℚ)),
          ⟨1, now⟩)
    else (some 0, ⟨1, now⟩)
  else (some 0, ⟨s.request_count + 1, now⟩)

/-- Clock readings of the calls that return normally (the admissions), for
a sequence of calls at the given clock readings. -/
def rlComps (cap : ℕ) : RLState → List ℚ → List ℚ
  | _, [] => []
  | s, t :: ts =>
    match rate_limit cap s t with
    | (some _, s2) => t :: rlComps cap s2 ts
    | (none, s2) => rlComps cap s2 ts

/-- Number of admissions inside the half-open window `(a, a + 3600]`. -/
def windowCount (a : ℚ) (l : List ℚ) : ℕ :=
  l.countP (fun t => decide (a < t ∧ t ≤ a + 3600))

/-- Number of admissions inside the closed window `[a, a + 3600]`
(an interval of length exactly `window_seconds`). -/
def closedWindowCount (a : ℚ) (l : List ℚ) : ℕ :=
  l.countP (fun t => decide (a ≤ t ∧ t ≤ a + 3600))

/-! ### The retry loop of `main` (lines 402–426) -/

/-- Outcome of one fetch attempt, covering exactly the cases the retry
loop handles: a navigation timeout (`scrape_choose_flights` returns `[]`),
a detected block marker (returns `[]`), a caught
`TimeoutException`/`WebDriverException` (`err`), or a rendered document
handed to the extraction loop. -/
inductive FetchOutcome
  | timeout : FetchOutcome
  | blocked : FetchOutcome
  | err : FetchOutcome
  | ok (doc : List FareNode) : FetchOutcome

/-- The flights available to the `if flights: break` test after one
attempt: empty unless the page rendered and the extraction loop produced
records. -/
def attemptFlights (taxes : ℚ) : FetchOutcome → List FlightData
  | .ok doc => extractFlights taxes doc
  | _ => []

/-- Terminal state of a run of the retry loop: `success` with the scraped
flights after the given number of attempts, or `exhausted` (the for-else
branch that logs "All retry attempts exhausted" and returns). -/
inductive RunResult
  | success (flights : List FlightData) (attempts : ℕ) : RunResult
  | exhausted (attempts : ℕ) : RunResult
deriving DecidableEq

/-- The retry loop from attempt index `i` with `fuel` attempts left. -/
def retryGo (taxes : ℚ) (outcomes : ℕ → FetchOutcome) : ℕ → ℕ → RunResult
  | i, 0 => .exhausted i
  | i, fuel + 1 =>
    if attemptFlights taxes (outcomes i) = [] then retryGo taxes outcomes (i + 1) fuel
    else .success (attemptFlights taxes (outcomes i)) (i + 1)

/-- `for attempt in range(config.max_retries)` with its for-else clause. -/
def retryRun (taxes : ℚ) (outcomes : ℕ → FetchOutcome) (maxRetries : ℕ) : RunResult :=
  retryGo taxes outcomes 0 maxRetries

/-! ### Concrete inputs used by the counterexample and bug theorems -/

/-- Nine rate-limiter calls in quick succession (all at clock reading 0,
the ninth at reading 1), with the default `requests_per_hour = 8`. -/
def c1trace : List ℚ :=
  [0, 0, 0, 0, 0, 0, 0, 0, 1]

/-- Sixteen rate-limiter calls: eight at clock reading 0 and eight at
clock reading 3600. -/
def c3trace : List ℚ :=
  [0, 0, 0, 0, 0, 0, 0, 0, 3600, 3600, 3600, 3600, 3600, 3600, 3600, 3600]

/-- A fare-card node with a date, points text `"-5k"` and no cash text. -/
def c7node : FareNode :=
  ⟨some ['d'], some ['-', '5', 'k'], none, none, none, none, []⟩

/-- A fare-card node that is skipped: no date field. -/
def c9nodeA : FareNode :=
  ⟨none, none, none, none, none, none, []⟩

/-- A fare-card node with a date and points `"45k"` but no
flight-identifier field. -/
def c9nodeB : FareNode :=
  ⟨some ['d'], some ['4', '5', 'k'], none, none, none, none, []⟩

/-- A fare-card node with a date, points text `"560k"` and no cash text. -/
def c10node : FareNode :=
  ⟨some ['d'], some ['5', '6', '0', 'k'], none, none, none, none, []⟩

/-- A fare-card node used by witnesses: date present, points `"-5k"`,
no flight-identifier field. -/
def wnodeNegPoints : FareNode :=
  ⟨some ['d'], some ['-', '5', 'k'], none, none, none, none, []⟩

/-- A fare-card node used by witnesses: date present, cash `"$7"`. -/
def wnodeCash7 : FareNode :=
  ⟨some ['d'], none, some ['$', '7'], none, none, none, []⟩

/-! ### Branch analysis of `rate_limit` -/

/-- Trichotomy for one `rate_limit` call: it raises exactly when the
counter exceeds the cap with less than a window elapsed (the divisor is
then `≤ 0`, so either `ZeroDivisionError` or a negative sleep duration);
otherwise it returns, resetting the counter when the cap was exceeded. -/
theorem rate_limit_cases (cap : ℕ) (s : RLState) (now : ℚ) :
    (cap < s.request_count + 1 ∧ now - s.last_request_time < 3600 ∧
      rate_limit cap s now = (none, ⟨s.request_count + 1, s.last_request_time⟩)) ∨
    (cap < s.request_count + 1 ∧ 3600 ≤ now - s.last_request_time ∧
      rate_limit cap s now = (some 0, ⟨1, now⟩)) ∨
    (s.request_count + 1 ≤ cap ∧
      rate_limit cap s now = (some 0, ⟨s.request_count + 1, now⟩)) := by
  by_cases h1 : cap < s.request_count + 1
  · by_cases h2 : now - s.last_request_time < 3600
    · left
      refine ⟨h1, h2, ?_⟩
      by_cases h3 : rl_divisor cap (s.request_count + 1) = 0
      · simp [rate_limit, h1, h2, h3]
      · have hd : rl_divisor cap (s.request_count + 1) < 0 := by
          unfold rl_divisor at h3 ⊢; omega
        have hneg : (3600 - (now - s.last_request_time)) /
            (rl_divisor cap (s.request_count + 1) : ℚ) < 0 := by
          apply div_neg_of_pos_of_neg
          · linarith
          · exact_mod_cast hd
        simp [rate_limit, h1, h2, h3, hneg]
    · right; left
      exact ⟨h1, le_of_not_lt h2, by simp [rate_limit, h1, h2]⟩
  · right; right
    exact ⟨le_of_not_lt h1, by simp [rate_limit, h1]⟩

/-- C1.  The admission operation is NOT total: starting from a fresh
limiter, eight calls return normally, and the ninth call within the hour
hits a zero divisor (`8 − 9 + 1 = 0`) and raises `ZeroDivisionError`
(`.1 = none` models the raise), contradicting "no error conditions". -/
theorem rate_limit_ninth_call_raises :
    rlComps 8 ⟨0, 0⟩ c1trace = [0, 0, 0, 0, 0, 0, 0, 0] ∧
    (rate_limit 8 ⟨8, 0⟩ 1).1 = none ∧
    rl_divisor 8 (8 + 1) = 0 := by
  refine ⟨?_, ?_, by decide⟩
  · norm_num [c1trace, rlComps, rate_limit, rl_divisor]
  · norm_num [rate_limit, rl_divisor]

/-- C3 counterexample.  With the default cap of 8 and a legitimate
(nondecreasing) sequence of clock readings, sixteen calls return
normally inside the closed interval `[0, 3600]` — an interval of length
exactly `window_seconds` — so the claimed bound of `requests_per_hour`
admissions per rolling window fails for windows containing both
endpoints. -/
theorem rate_window_closed_interval_violation :
    closedWindowCount 0 (rlComps 8 ⟨0, 0⟩ c3trace) = 16 ∧
    List.Pairwise (· ≤ ·) ((0 : ℚ) :: c3trace) ∧ 8 < 16 := by
  refine ⟨?_, by decide, by norm_num⟩
  have h : rlComps 8 ⟨0, 0⟩ c3trace = c3trace := by
    norm_num [c3trace, rlComps, rate_limit, rl_divisor]
  rw [h]
  norm_num [closedWindowCount, c3trace, List.countP, List.countP.go]

/-! ### The half-open rolling-window bound for `rate_limit` -/

/-- Induction invariant for the rolling-window bound.  `comps` is the list
of past admissions; the rate-limiter state `s` dominates them
(`last_request_time` is the time of the last admission, the recent
admissions are counted by `request_count`), and every half-open window
holds at most `cap` past admissions; this is preserved by the remaining
calls `ts`. -/
theorem rl_window_key (cap : ℕ) (hcap : 1 ≤ cap) :
    ∀ (ts : List ℚ) (s : RLState) (comps : List ℚ),
      List.Pairwise (· ≤ ·) (s.last_request_time :: ts) →
      (∀ c ∈ comps, c ≤ s.last_request_time) →
      comps.countP (fun c => decide (s.last_request_time - 3600 < c)) ≤ s.request_count →
      (∀ b : ℚ, windowCount b comps ≤ cap) →
      ∀ a : ℚ, windowCount a (comps ++ rlComps cap s ts) ≤ cap := by
  intro ts
  induction ts with
  | nil =>
    intro s comps _ _ _ hM a
    simpa [rlComps, windowCount] using hM a
  | cons t ts ih =>
    intro s comps hsort hL hK hM a
    rw [List.pairwise_cons] at hsort
    obtain ⟨hhead, htail⟩ := hsort
    have hst : s.last_request_time ≤ t := hhead t (List.mem_cons_self t ts)
    rcases rate_limit_cases cap s t with ⟨hc, he, heq⟩ | ⟨hc, he, heq⟩ | ⟨hc, heq⟩
    · -- the call raises: no admission, counter incremented, clock anchor kept
      have hstep : rlComps cap s (t :: ts) =
          rlComps cap ⟨s.request_count + 1, s.last_request_time⟩ ts := by
        simp [rlComps, heq]
      rw [hstep]
      refine ih ⟨s.request_count + 1, s.last_request_time⟩ comps ?_ hL
        (hK.trans (Nat.le_succ _)) hM a
      rw [List.pairwise_cons]
      exact ⟨fun b hb => hhead b (List.mem_cons_of_mem t hb), (List.pairwise_cons.mp htail).2⟩
    · -- a full window elapsed: admission with counter reset to 1
      have hstep : rlComps cap s (t :: ts) = t :: rlComps cap ⟨1, t⟩ ts := by
        simp [rlComps, heq]
      have harr : comps ++ t :: rlComps cap ⟨1, t⟩ ts =
          (comps ++ [t]) ++ rlComps cap ⟨1, t⟩ ts := by
        simp
      rw [hstep, harr]
      have hold : ∀ c ∈ comps, c ≤ t - 3600 := fun c hcm => by
        have := hL c hcm; linarith
      refine ih ⟨1, t⟩ (comps ++ [t]) htail ?_ ?_ ?_ a
      · intro c hcm
        rcases List.mem_append.mp hcm with hcm | hcm
        · exact le_trans (hL c hcm) hst
        · simp only [List.mem_singleton] at hcm
          exact le_of_eq hcm
      · rw [List.countP_append]
        have h0 : comps.countP (fun c => decide ((⟨1, t⟩ : RLState).last_request_time - 3600 < c)) = 0 := by
          rw [List.countP_eq_zero]
          intro c hcm
          simp only [decide_eq_true_eq, not_lt]
          exact hold c hcm
        rw [h0]
        simp
      · intro b
        rw [windowCount, List.countP_append]
        by_cases hbt : b < t ∧ t ≤ b + 3600
        · have h0 : comps.countP (fun x => decide (b < x ∧ x ≤ b + 3600)) = 0 := by
            rw [List.countP_eq_zero]
            intro c hcm
            simp only [decide_eq_true_eq, not_and, not_le]
            intro hbc
            have := hold c hcm
            linarith [hbt.2]
          rw [h0]
          simpa [hbt] using hcap
        · have h1 : List.countP (fun x => decide (b < x ∧ x ≤ b + 3600)) [t] = 0 := by
            simp [hbt]
          rw [h1, Nat.add_zero]
          exact hM b
    · -- counter below the cap: admission, counter incremented
      have hstep : rlComps cap s (t :: ts) =
          t :: rlComps cap ⟨s.request_count + 1, t⟩ ts := by
        simp [rlComps, heq]
      have harr : comps ++ t :: rlComps cap ⟨s.request_count + 1, t⟩ ts =
          (comps ++ [t]) ++ rlComps cap ⟨s.request_count + 1, t⟩ ts := by
        simp
      rw [hstep, harr]
      have hmono : comps.countP (fun c => decide (t - 3600 < c)) ≤ s.request_count := by
        refine le_trans (List.countP_mono_left ?_) hK
        intro c _ hdec
        simp only [decide_eq_true_eq] at hdec ⊢
        linarith
      refine ih ⟨s.request_count + 1, t⟩ (comps ++ [t]) htail ?_ ?_ ?_ a
      · intro c hcm
        rcases List.mem_append.mp hcm with hcm | hcm
        · exact le_trans (hL c hcm) hst
        · simp only [List.mem_singleton] at hcm
          exact le_of_eq hcm
      · rw [List.countP_append]
        have h1 : List.countP (fun c => decide (t - 3600 < c)) [t] ≤ 1 := by
          simp [List.countP_cons]
        exact Nat.add_le_add hmono h1
      · intro b
        rw [windowCount, List.countP_append]
        by_cases hbt : b < t ∧ t ≤ b + 3600
        · have hle : comps.countP (fun x => decide (b < x ∧ x ≤ b + 3600)) ≤ s.request_count := by
            refine le_trans (List.countP_mono_left ?_) hK
            intro c _ hdec
            simp only [decide_eq_true_eq] at hdec ⊢
            obtain ⟨hb1, hb2⟩ := hdec
            linarith [hbt.2]
          have h1 : List.countP (fun x => decide (b < x ∧ x ≤ b + 3600)) [t] ≤ 1 := by
            simp only [List.countP_cons, List.countP_nil]
            split <;> omega
          have := Nat.add_le_add hle h1
          exact le_trans this hc
        · have h1 : List.countP (fun x => decide (b < x ∧ x ≤ b + 3600)) [t] = 0 := by
            simp [hbt]
          rw [h1, Nat.add_zero]
          exact hM b

/-- C3 amended.  For every cap `≥ 1`, every initial clock reading and
every nondecreasing sequence of call clock readings, at most `cap` calls
of `rate_limit` return normally inside any half-open window
`(a, a + 3600]` (equivalently, any interval of length `window_seconds`
that does not contain both of its endpoints). -/
theorem rate_window_halfopen_bound (cap : ℕ) (hcap : 1 ≤ cap) (t0 : ℚ) (ts : List ℚ)
    (hsorted : List.Pairwise (· ≤ ·) (t0 :: ts)) (a : ℚ) :
    windowCount a (rlComps cap ⟨0, t0⟩ ts) ≤ cap := by
  have h := rl_window_key cap hcap ts ⟨0, t0⟩ [] hsorted (by simp)
    (by simp) (by intro b; simp [windowCount]) a
  simpa using h

/-- Witness for the half-open rolling-window bound at a concrete input. -/
theorem rate_window_halfopen_bound_witness :
    windowCount 0 (rlComps 8 ⟨0, 0⟩ [0, 0]) ≤ 8 :=
  rate_window_halfopen_bound 8 (by decide) 0 [0, 0] (by decide) 0

/-! ### C4: the value-ratio formula -/

/-- C4.  The value ratio equals `((cash − taxes) / points) × 100` rounded
to 2 decimals when `points > 0` and `0` when `points ≤ 0`; on the spec's
example `cash = 200`, `points = 40000`, `taxes = 5.60` it is `0.49`. -/
theorem calculate_cpp_spec :
    (∀ (cash taxes : ℚ) (points : ℤ),
      calculate_cpp cash points taxes =
        if 0 < points then round2 ((cash - taxes) / (points : ℚ) * 100) else 0) ∧
    calculate_cpp 200 40000 (28 / 5) = 49 / 100 := by
  constructor
  · intro cash taxes points; rfl
  · have h1 : calculate_cpp 200 40000 (28 / 5) =
        round2 (((200 : ℚ) - 28 / 5) / ((40000 : ℤ) : ℚ) * 100) := by
      simp [calculate_cpp]
    have h2 : ((200 : ℚ) - 28 / 5) / ((40000 : ℤ) : ℚ) * 100 = 243 / 500 := by
      push_cast
      norm_num
    have h3 : ⌊(243 / 500 : ℚ) * 100⌋ = 48 := by
      rw [show (243 / 500 : ℚ) * 100 = 243 / 5 by norm_num, Int.floor_eq_iff]
      norm_num
    rw [h1, h2, round2, roundHalfEven, h3]
    norm_num

/-! ### C5: `parse_points` -/

/-- C5 counterexample.  On the input `"ok"` the lowered text contains
`'k'`, so the code evaluates `float("o")`, which raises `ValueError`:
`parse_points` is not total, contradicting "it never fails on any
input". -/
theorem parse_points_raises_on_ok :
    parse_points (some ['o', 'k']) = none := by decide

/-- C5 amended.  `parse_points` never fails on inputs whose
stripped-and-lowered text does not contain `'k'` (first integer token
with comma groups, else 0); on text containing `'k'` it multiplies the
`float` value of the remaining text by 1000 when that text is a valid
float literal and raises otherwise; `"45k" → 45000`,
`"12,345" → 12345`, absent or empty input gives 0. -/
theorem parse_points_behavior :
    (∀ s : List Char,
      'k' ∉ (pyStrip s).map asciiLower → (parse_points (some s)).isSome = true) ∧
    parse_points none = some 0 ∧
    parse_points (some []) = some 0 ∧
    parse_points (some ['4', '5', 'k']) = some 45000 ∧
    parse_points (some ['1', '2', ',', '3', '4', '5']) = some 12345 := by
  refine ⟨?_, by decide, by decide, by decide, by decide⟩
  intro s hk
  by_cases hs : s = []
  · subst hs; decide
  · simp [parse_points, hs, hk]

/-- Witness for the amended `parse_points` claim at a concrete input. -/
theorem parse_points_behavior_witness :
    (parse_points (some ['1', '2'])).isSome = true :=
  parse_points_behavior.1 ['1', '2'] (by decide)

/-! ### C6: `parse_money` -/

/-- C6 counterexample.  On the input `","` the regex matches the
all-comma token `","`, comma removal leaves `""`, and `float("")` raises
`ValueError`: `parse_money` is not total, contradicting "it never fails
on any input". -/
theorem parse_money_raises_on_comma :
    parse_money (some [',']) = none := by decide

/-- Structure of a successful `findFirstMoneyChar`: the returned suffix
starts with a digit-or-comma character of the input. -/
theorem findFirstMoneyChar_spec :
    ∀ s r, findFirstMoneyChar s = some r →
      ∃ c cs, r = c :: cs ∧ (c.isDigit ∨ c = ',') ∧ c ∈ s := by
  intro s
  induction s with
  | nil => intro r h; simp [findFirstMoneyChar] at h
  | cons c cs ih =>
    intro r h
    by_cases hc : c.isDigit = true ∨ c = ','
    · rw [findFirstMoneyChar, if_pos hc] at h
      exact ⟨c, cs, (Option.some_inj.mp h).symm, hc, List.mem_cons_self c cs⟩
    · rw [findFirstMoneyChar, if_neg hc] at h
      obtain ⟨c', cs', hr, hp, hm⟩ := ih r h
      exact ⟨c', cs', hr, hp, List.mem_cons_of_mem _ hm⟩

/-- C6 amended.  `parse_money` never fails on inputs without a comma
(the first token then starts with a digit and `float` succeeds); absent
or tokenless input gives 0.0; `"$1,234.50" → 1234.50`.  It does raise on
inputs whose first `[\d,]+` token consists of commas only. -/
theorem parse_money_behavior :
    (∀ s : List Char, ',' ∉ s → (parse_money (some s)).isSome = true) ∧
    parse_money none = some 0 ∧
    parse_money (some []) = some 0 ∧
    parse_money (some ['$', '1', ',', '2', '3', '4', '.', '5', '0']) = some (2469 / 2) := by
  refine ⟨?_, rfl, rfl, ?_⟩
  · intro s hcomma
    by_cases hs0 : s = []
    · subst hs0; rfl
    · rcases hf : findFirstMoneyChar s with _ | r
      · simp [parse_money, parse_money_core, hs0, hf, moneyVal]
      · obtain ⟨c, cs, hr, hp, hm⟩ := findFirstMoneyChar_spec s r hf
        have hcd : c.isDigit := by
          rcases hp with h | h
          · exact h
          · exact absurd (h ▸ hm) hcomma
        subst hr
        have hne : ((c :: cs).takeWhile (fun x => x.isDigit || x == ',')).filter
            Char.isDigit ≠ [] := by
          rw [List.takeWhile_cons_of_pos (by simp [hcd]),
            List.filter_cons_of_pos (by simp [hcd])]
          simp
        simp [parse_money, parse_money_core, hs0, hf, moneyVal, hne]
  · have hcore : parse_money_core (some ['$', '1', ',', '2', '3', '4', '.', '5', '0']) =
        .tok 1234 ['5', '0'] := by decide
    have hd : natOfDigits ['5', '0'] = 50 := by decide
    rw [parse_money, hcore, moneyVal, hd]
    norm_num

/-- Witness for the amended `parse_money` claim at a concrete input. -/
theorem parse_money_behavior_witness :
    (parse_money (some ['7'])).isSome = true :=
  parse_money_behavior.1 ['7'] (by decide)

/-! ### C8: deduplication -/

/-- The dedup loop is idempotent for any initial seen-set. -/
theorem dedupeAux_idem (xs : List FlightData) :
    ∀ seen, dedupeAux seen (dedupeAux seen xs) = dedupeAux seen xs := by
  induction xs with
  | nil => intro seen; rfl
  | cons x xs ih =>
    intro seen
    by_cases h : flightKey x ∈ seen
    · simp only [dedupeAux, if_pos h]
      exact ih seen
    · simp only [dedupeAux, if_neg h]
      rw [ih (flightKey x :: seen)]

/-- The dedup loop returns a sublist of its input. -/
theorem dedupeAux_sublist (xs : List FlightData) :
    ∀ seen, (dedupeAux seen xs).Sublist xs := by
  induction xs with
  | nil => intro seen; simp [dedupeAux]
  | cons x xs ih =>
    intro seen
    by_cases h : flightKey x ∈ seen
    · simp only [dedupeAux, if_pos h]
      exact (ih seen).trans (List.sublist_cons_self x xs)
    · simp only [dedupeAux, if_neg h]
      exact (ih (flightKey x :: seen)).cons₂ x

/-- Membership in the dedup loop output: exactly the elements whose key is
unseen and that are the first occurrence of their key in the input. -/
theorem dedupeAux_mem (xs : List FlightData) :
    ∀ seen (f : FlightData),
      f ∈ dedupeAux seen xs ↔
        flightKey f ∉ seen ∧
          ∃ pre post, xs = pre ++ f :: post ∧ ∀ g ∈ pre, flightKey g ≠ flightKey f := by
  induction xs with
  | nil =>
    intro seen f
    constructor
    · intro h; simp [dedupeAux] at h
    · rintro ⟨-, pre, post, h, -⟩
      exact absurd h (by simp)
  | cons x xs ih =>
    intro seen f
    constructor
    · intro hf
      by_cases h : flightKey x ∈ seen
      · rw [dedupeAux, if_pos h] at hf
        obtain ⟨hnot, pre, post, heq, hpre⟩ := (ih seen f).mp hf
        refine ⟨hnot, x :: pre, post, by rw [heq]; rfl, ?_⟩
        intro g hg
        rcases List.mem_cons.mp hg with hg | hg
        · subst hg
          intro hkey
          exact hnot (hkey ▸ h)
        · exact hpre g hg
      · rw [dedupeAux, if_neg h] at hf
        rcases List.mem_cons.mp hf with hf | hf
        · subst hf
          exact ⟨h, [], xs, rfl, by simp⟩
        · obtain ⟨hnot, pre, post, heq, hpre⟩ := (ih (flightKey x :: seen) f).mp hf
          rw [List.mem_cons] at hnot
          push_neg at hnot
          refine ⟨hnot.2, x :: pre, post, by rw [heq]; rfl, ?_⟩
          intro g hg
          rcases List.mem_cons.mp hg with hg | hg
          · subst hg
            exact fun hkey => hnot.1 hkey.symm
          · exact hpre g hg
    · rintro ⟨hnot, pre, post, heq, hpre⟩
      cases pre with
      | nil =>
        simp only [List.nil_append] at heq
        injection heq with h1 h2
        subst h1
        rw [dedupeAux, if_neg hnot]
        exact List.mem_cons_self _ _
      | cons g pre =>
        simp only [List.cons_append] at heq
        injection heq with h1 h2
        subst h1
        have hgf : flightKey x ≠ flightKey f := hpre x (List.mem_cons_self x pre)
        by_cases h : flightKey x ∈ seen
        · rw [dedupeAux, if_pos h]
          exact (ih seen f).mpr ⟨hnot, pre, post, h2, fun g' hg' =>
            hpre g' (List.mem_cons_of_mem _ hg')⟩
        · rw [dedupeAux, if_neg h]
          apply List.mem_cons_of_mem
          refine (ih (flightKey x :: seen) f).mpr ⟨?_, pre, post, h2, fun g' hg' =>
            hpre g' (List.mem_cons_of_mem _ hg')⟩
          rw [List.mem_cons]
          push_neg
          exact ⟨fun hkey => hgf hkey.symm, hnot⟩

/-- C8.  Deduplication keyed by (points required, cash price, departure
time) is idempotent, its output is in first-seen input order (a sublist
of the input), and it keeps exactly the first record of each key: a
record is in the output iff it occurs in the input with no
earlier record of the same key. -/
theorem dedupe_first_seen_spec (xs : List FlightData) :
    dedupe (dedupe xs) = dedupe xs ∧
    (dedupe xs).Sublist xs ∧
    ∀ f : FlightData,
      f ∈ dedupe xs ↔
        ∃ pre post, xs = pre ++ f :: post ∧ ∀ g ∈ pre, flightKey g ≠ flightKey f := by
  refine ⟨dedupeAux_idem xs [], dedupeAux_sublist xs [], ?_⟩
  intro f
  rw [dedupe, dedupeAux_mem xs [] f]
  simp

/-- Witness for the deduplication claim at a concrete input. -/
theorem dedupe_first_seen_spec_witness :
    dedupe (dedupe []) = dedupe [] :=
  (dedupe_first_seen_spec []).1

/-! ### Helper lemmas on the extractor and value ratio -/

/-- A successful `parse_money` value is nonnegative: the matched token has
no sign, so the parsed value is a sum of nonnegative parts. -/
theorem parse_money_nonneg (t : Option (List Char)) (q : ℚ)
    (h : parse_money t = some q) : 0 ≤ q := by
  rw [parse_money] at h
  rcases hc : parse_money_core t with _ | _ | ⟨n, fr⟩ <;> rw [hc, moneyVal] at h
  · exact absurd h (by simp)
  · obtain rfl := (Option.some_inj.mp h).symm
    norm_num
  · obtain rfl := (Option.some_inj.mp h).symm
    positivity

/-- Inversion for one extraction-loop iteration: an emitted record comes
from a node with a date whose points and cash texts parsed without an
exception, the retention test held, and the record fields are as built. -/
theorem processNode_inv (taxes : ℚ) (i : ℕ) (b : FareNode) (f : FlightData)
    (h : processNode taxes i b = some f) :
    ∃ points cash,
      parse_points (some (b.pointsText.getD [])) = some points ∧
      parse_money (some (b.cashText.getD [])) = some cash ∧
      (cash ≠ 0 ∨ points ≠ 0) ∧
      f.points_required = points ∧ f.cash_price_usd = cash ∧
      f.flight_number = b.fnText.getD (aaName i) ∧
      f.cpp = calculate_cpp cash points taxes := by
  rcases hd : b.dateText with _ | d
  · simp [processNode, hd] at h
  rcases hp : parse_points (some (b.pointsText.getD [])) with _ | points
  · simp [processNode, hd, hp] at h
  rcases hm : parse_money (some (b.cashText.getD [])) with _ | cash
  · simp [processNode, hd, hp, hm] at h
  simp only [processNode, hd, hp, hm] at h
  split_ifs at h with hc
  obtain rfl := (Option.some_inj.mp h).symm
  exact ⟨points, cash, rfl, rfl, hc, rfl, rfl, rfl, rfl⟩

/-- Every record in the extraction-loop output is emitted by some
iteration. -/
theorem extractFrom_mem (taxes : ℚ) :
    ∀ (nodes : List FareNode) (i : ℕ) (f : FlightData),
      f ∈ extractFrom taxes i nodes →
      ∃ j b, processNode taxes j b = some f := by
  intro nodes
  induction nodes with
  | nil => intro i f h; simp [extractFrom] at h
  | cons b bs ih =>
    intro i f h
    rcases hb : processNode taxes i b with _ | g
    · rw [extractFrom, hb] at h
      exact ih (i + 1) f h
    · rw [extractFrom, hb] at h
      rcases List.mem_cons.mp h with h | h
      · exact ⟨i, b, by rw [hb, h]⟩
      · exact ih (i + 1) f h

/-- A record emitted for the node at offset `pre.length` is in the
extraction-loop output. -/
theorem extractFrom_append (taxes : ℚ) :
    ∀ (pre : List FareNode) (i : ℕ) (b : FareNode) (post : List FareNode) (f : FlightData),
      processNode taxes (i + pre.length) b = some f →
      f ∈ extractFrom taxes i (pre ++ b :: post) := by
  intro pre
  induction pre with
  | nil =>
    intro i b post f h
    rw [List.length_nil, Nat.add_zero] at h
    rw [List.nil_append, extractFrom, h]
    exact List.mem_cons_self _ _
  | cons a pre ih =>
    intro i b post f h
    have h' : processNode taxes ((i + 1) + pre.length) b = some f := by
      rw [show (i + 1) + pre.length = i + (a :: pre).length from by simp; omega]
      exact h
    rw [List.cons_append]
    rcases ha : processNode taxes i a with _ | g
    · rw [extractFrom, ha]
      exact ih (i + 1) b post f h'
    · rw [extractFrom, ha]
      exact List.mem_cons_of_mem _ (ih (i + 1) b post f h')

/-- `Python round()` of a negative rational is nonpositive. -/
theorem roundHalfEven_nonpos (q : ℚ) (hq : q < 0) : roundHalfEven q ≤ 0 := by
  have h1 : (⌊q⌋ : ℚ) ≤ q := Int.floor_le q
  have hfl : ⌊q⌋ < 0 := by exact_mod_cast h1.trans_lt hq
  rw [roundHalfEven]
  split_ifs <;> omega

/-- `Python round(·, 2)` of a negative rational is nonpositive. -/
theorem round2_nonpos (q : ℚ) (hq : q < 0) : round2 q ≤ 0 := by
  rw [round2]
  have h := roundHalfEven_nonpos (q * 100) (by nlinarith)
  have h2 : ((roundHalfEven (q * 100) : ℚ)) ≤ 0 := by exact_mod_cast h
  linarith

/-- When points are positive and the cash price is below the taxes, the
value ratio is nonpositive. -/
theorem calculate_cpp_nonpos (cash taxes : ℚ) (points : ℤ)
    (hp : 0 < points) (hct : cash < taxes) : calculate_cpp cash points taxes ≤ 0 := by
  rw [calculate_cpp, if_pos hp]
  apply round2_nonpos
  have hpq : (0 : ℚ) < (points : ℚ) := by exact_mod_cast hp
  have hneg : (cash - taxes) / (points : ℚ) < 0 :=
    div_neg_of_neg_of_pos (by linarith) hpq
  nlinarith

/-- Every input record's key is represented in the dedup-loop output. -/
theorem dedupeAux_key_complete :
    ∀ (xs : List FlightData) (seen : List (ℤ × ℚ × List Char)) (f : FlightData),
      f ∈ xs → flightKey f ∉ seen →
      ∃ g ∈ dedupeAux seen xs, flightKey g = flightKey f := by
  intro xs
  induction xs with
  | nil => intro seen f h; simp at h
  | cons x xs ih =>
    intro seen f hmem hnot
    by_cases hx : flightKey x ∈ seen
    · rw [dedupeAux, if_pos hx]
      rcases List.mem_cons.mp hmem with rfl | hmem'
      · exact absurd hx hnot
      · exact ih seen f hmem' hnot
    · rw [dedupeAux, if_neg hx]
      by_cases hkey : flightKey f = flightKey x
      · exact ⟨x, List.mem_cons_self _ _, hkey.symm⟩
      · rcases List.mem_cons.mp hmem with rfl | hmem'
        · exact absurd rfl hkey
        · obtain ⟨g, hg, hgk⟩ := ih (flightKey x :: seen) f hmem' (by
            rw [List.mem_cons]
            push_neg
            exact ⟨hkey, hnot⟩)
          exact ⟨g, List.mem_cons_of_mem _ hg, hgk⟩

/-- The fold implementing Python `max(..., key=...)` preserves any
property shared by the start element and the list elements. -/
theorem pyMaxBy_pred (p : FlightData → Prop) :
    ∀ (vs : List FlightData) (v : FlightData), p v → (∀ g ∈ vs, p g) → p (pyMaxBy v vs) := by
  intro vs
  induction vs with
  | nil => intro v hv _; exact hv
  | cons g vs ih =>
    intro v hv hall
    rw [pyMaxBy, List.foldl_cons]
    have h1 : p (if v.cpp < g.cpp then g else v) := by
      split_ifs
      · exact hall g (List.mem_cons_self _ _)
      · exact hv
    exact ih _ h1 (fun x hx => hall x (List.mem_cons_of_mem _ hx))

/-- The best-value highlight always has a strictly positive value ratio. -/
theorem bestValue_pos (fs : List FlightData) (f : FlightData)
    (h : bestValue fs = some f) : 0 < f.cpp := by
  rw [bestValue] at h
  rcases hfl : fs.filter (fun g => decide (0 < g.cpp)) with _ | ⟨v, vs⟩ <;> rw [hfl] at h
  · exact absurd h (by simp)
  · obtain rfl := (Option.some_inj.mp h).symm
    have hall : ∀ g ∈ v :: vs, 0 < g.cpp := by
      intro g hg
      have hgf : g ∈ fs.filter (fun g => decide (0 < g.cpp)) := hfl ▸ hg
      simpa using (List.mem_filter.mp hgf).2
    exact pyMaxBy_pred (fun g => 0 < g.cpp) vs v (hall v (List.mem_cons_self _ _))
      (fun g hg => hall g (List.mem_cons_of_mem _ hg))

/-! ### C7: the retention invariant -/

/-- C7 counterexample.  A node whose points text is `"-5k"` parses to the
negative `points = -5000` (the `k` branch goes through `float`, which
accepts a sign), and with no cash text the record (cash = 0,
points = -5000) is emitted — it passes Python's truthiness test
`if cash or points` — even though neither `cash > 0` nor `points > 0`
holds, refuting the "only if cash > 0 or points > 0" form of the claim. -/
theorem extractor_emits_negative_points_record :
    (extractFlights (28 / 5) [c7node]).map (fun f => (f.points_required, f.cash_price_usd)) =
      [(-5000, 0)] ∧
    ¬ ((0 : ℚ) > 0 ∨ (-5000 : ℤ) > 0) := by
  have hp : parse_points (some ['-', '5', 'k']) = some (-5000) := by decide
  have hm : parse_money (some []) = some 0 := rfl
  refine ⟨?_, by norm_num⟩
  norm_num [extractFlights, extractFrom, processNode, c7node, hp, hm]

/-- C7 amended.  The extractor never emits a record with cash price 0 and
points 0; more precisely a record is emitted only if its cash price is
strictly positive or its points value is nonzero (parsed cash is always
nonnegative, but points can be negative through the `k` branch). -/
theorem extractor_retention_invariant (taxes : ℚ) (nodes : List FareNode) (f : FlightData)
    (hf : f ∈ extractFlights taxes nodes) :
    ¬ (f.cash_price_usd = 0 ∧ f.points_required = 0) ∧
    (0 < f.cash_price_usd ∨ f.points_required ≠ 0) := by
  obtain ⟨j, b, hj⟩ := extractFrom_mem taxes nodes 1 f hf
  obtain ⟨points, cash, hp, hm, hc, hfp, hfc, -, -⟩ := processNode_inv taxes j b f hj
  have hnn : 0 ≤ cash := parse_money_nonneg _ _ hm
  constructor
  · rintro ⟨h1, h2⟩
    rw [hfc] at h1
    rw [hfp] at h2
    rcases hc with hc | hc
    · exact hc h1
    · exact hc h2
  · rw [hfc, hfp]
    rcases hc with hc | hc
    · left; exact lt_of_le_of_ne hnn (Ne.symm hc)
    · right; exact hc

/-- A record extracted from a witness node with cash text `"$7"`. -/
def wrecCash7 : FlightData :=
  ⟨['A', 'A', '_', '1'], [], [], 0, 7, 6, 0, []⟩

/-- Witness for the amended retention invariant at a concrete document. -/
theorem extractor_retention_invariant_witness :
    ¬ (wrecCash7.cash_price_usd = 0 ∧ wrecCash7.points_required = 0) ∧
    (0 < wrecCash7.cash_price_usd ∨ wrecCash7.points_required ≠ 0) :=
  extractor_retention_invariant 6 [wnodeCash7] wrecCash7 (by
    have hm : parse_money (some ['$', '7']) = some 7 := by
      have hcore : parse_money_core (some ['$', '7']) = .tok 7 [] := by decide
      rw [parse_money, hcore, moneyVal]
      norm_num [natOfDigits]
    have hp : parse_points (some []) = some 0 := rfl
    have ha : aaName 1 = ['A', 'A', '_', '1'] := by decide
    norm_num [extractFlights, extractFrom, processNode, wnodeCash7, wrecCash7, hm, hp, ha,
      calculate_cpp])

/-! ### C9: the fallback flight identifier -/

/-- C9 counterexample.  With a first node skipped for a missing date and a
second node lacking a flight identifier, the emitted record's identifier
is `"AA_2"` — the prefix is `AA_`, not `UNKNOWN_`, and the index counts
all fare-card nodes (including skipped ones), not just processed ones,
so the claimed `"UNKNOWN_1"` is wrong on both counts. -/
theorem extractor_fallback_counterexample :
    (extractFlights (28 / 5) [c9nodeA, c9nodeB]).map (fun f => f.flight_number) =
      [['A', 'A', '_', '2']] ∧
    (['A', 'A', '_', '2'] : List Char) ≠ ['U', 'N', 'K', 'N', 'O', 'W', 'N', '_', '1'] := by
  have hp : parse_points (some ['4', '5', 'k']) = some 45000 := by decide
  have hm : parse_money (some []) = some 0 := rfl
  have ha : aaName 2 = ['A', 'A', '_', '2'] := by decide
  refine ⟨?_, by decide⟩
  norm_num [extractFlights, extractFrom, processNode, c9nodeA, c9nodeB, hp, hm, ha]

/-- C9 amended.  A processed fare-card node without a flight-identifier
field is assigned the fallback identifier `AA_{i}` where `i` is its
1-based position among all fare-card nodes of the document. -/
theorem extractor_fallback_name (taxes : ℚ) (pre post : List FareNode) (b : FareNode)
    (f : FlightData) (hproc : processNode taxes (pre.length + 1) b = some f)
    (hfn : b.fnText = none) :
    f ∈ extractFlights taxes (pre ++ b :: post) ∧
    f.flight_number = aaName (pre.length + 1) := by
  constructor
  · apply extractFrom_append taxes pre 1 b post f
    rw [Nat.add_comm 1 pre.length]
    exact hproc
  · obtain ⟨points, cash, -, -, -, -, -, hfn2, -⟩ :=
      processNode_inv taxes (pre.length + 1) b f hproc
    rw [hfn2, hfn]
    rfl

/-- A record extracted from the witness node with points text `"-5k"`. -/
def wrecNeg : FlightData :=
  ⟨aaName 1, [], [], -5000, 0, 6, 0, []⟩

/-- Witness for the amended fallback-identifier claim at a concrete
document. -/
theorem extractor_fallback_name_witness :
    wrecNeg ∈ extractFlights 6 (([] : List FareNode) ++ wnodeNegPoints :: []) ∧
    wrecNeg.flight_number = aaName (List.length ([] : List FareNode) + 1) :=
  extractor_fallback_name 6 [] [] wnodeNegPoints wrecNeg (by
    have hp : parse_points (some ['-', '5', 'k']) = some (-5000) := by decide
    have hm : parse_money (some []) = some 0 := rfl
    norm_num [processNode, wnodeNegPoints, wrecNeg, hp, hm, calculate_cpp]) rfl

/-! ### C10: records with negative redemption value -/

/-- C10 counterexample.  The record extracted from points text `"560k"`
with no cash has `points = 560000 > 0` and `cash = 0 < taxes = 5.60`, yet
its value ratio is 0 and not strictly negative: the exact ratio
`-0.001` rounds to `-0.0` at two decimals. -/
theorem negative_ratio_counterexample :
    (extractFlights (28 / 5) [c10node]).map
        (fun f => (f.points_required, f.cash_price_usd, f.cpp)) =
      [(560000, 0, 0)] ∧
    (0 : ℤ) < 560000 ∧ (0 : ℚ) < 28 / 5 ∧ ¬ ((0 : ℚ) < 0) := by
  have hp : parse_points (some ['5', '6', '0', 'k']) = some 560000 := by decide
  have hm : parse_money (some []) = some 0 := rfl
  have h1 : calculate_cpp 0 560000 (28 / 5) =
      round2 (((0 : ℚ) - 28 / 5) / ((560000 : ℤ) : ℚ) * 100) := by
    norm_num [calculate_cpp]
  have h2 : ((0 : ℚ) - 28 / 5) / ((560000 : ℤ) : ℚ) * 100 = -1 / 1000 := by
    push_cast
    norm_num
  have h3 : ⌊(-1 / 1000 : ℚ) * 100⌋ = -1 := by
    rw [show (-1 / 1000 : ℚ) * 100 = -1 / 10 by norm_num, Int.floor_eq_iff]
    norm_num
  have hcpp : calculate_cpp 0 560000 (28 / 5) = 0 := by
    rw [h1, h2, round2, roundHalfEven, h3]
    norm_num
  refine ⟨?_, by norm_num, by norm_num, by norm_num⟩
  norm_num [extractFlights, extractFrom, processNode, c10node, hp, hm, hcpp]

/-- C10 amended.  A record with positive points and cash below taxes has
a nonpositive (not necessarily strictly negative) value ratio; every
extracted record's dedup key is represented in the persisted output; and
the best-value highlight never selects a record with nonpositive ratio,
since any selected record has ratio strictly positive. -/
theorem nonpositive_ratio_behavior :
    (∀ (cash taxes : ℚ) (points : ℤ), 0 < points → cash < taxes →
      calculate_cpp cash points taxes ≤ 0) ∧
    (∀ (xs : List FlightData) (f : FlightData), f ∈ xs →
      ∃ g ∈ dedupe xs, flightKey g = flightKey f) ∧
    (∀ (fs : List FlightData) (f : FlightData), bestValue fs = some f → 0 < f.cpp) := by
  refine ⟨calculate_cpp_nonpos, ?_, bestValue_pos⟩
  intro xs f hm
  exact dedupeAux_key_complete xs [] f hm (by simp)

/-- Witness for the nonpositive-ratio claim at a concrete input. -/
theorem nonpositive_ratio_behavior_witness :
    calculate_cpp 0 1 6 ≤ 0 :=
  nonpositive_ratio_behavior.1 0 6 1 (by decide) (by norm_num)

/-! ### C2: the retry loop -/

/-- The retry loop exhausts all its fuel when every attempt yields no
flights, ending at attempt index `i + fuel`. -/
theorem retryGo_exhausted_aux (taxes : ℚ) (outcomes : ℕ → FetchOutcome) :
    ∀ (fuel i : ℕ), (∀ j, j < fuel → attemptFlights taxes (outcomes (i + j)) = []) →
      retryGo taxes outcomes i fuel = .exhausted (i + fuel) := by
  intro fuel
  induction fuel with
  | zero => intro i _; simp [retryGo]
  | succ n ih =>
    intro i h
    have h0 : attemptFlights taxes (outcomes i) = [] := by
      simpa using h 0 (Nat.succ_pos n)
    rw [retryGo, if_pos h0]
    have hrec := ih (i + 1) (fun j hj => by
      have hh := h (j + 1) (by omega)
      rwa [show i + (j + 1) = i + 1 + j from by omega] at hh)
    rw [hrec]
    congr 1
    omega

/-- The retry loop stops at the first attempt that yields flights,
having used exactly that attempt's index plus one attempts. -/
theorem retryGo_success_aux (taxes : ℚ) (outcomes : ℕ → FetchOutcome) :
    ∀ (fuel k i : ℕ), k < fuel →
      (∀ j, j < k → attemptFlights taxes (outcomes (i + j)) = []) →
      attemptFlights taxes (outcomes (i + k)) ≠ [] →
      retryGo taxes outcomes i fuel =
        .success (attemptFlights taxes (outcomes (i + k))) (i + k + 1) := by
  intro fuel
  induction fuel with
  | zero => intro k i hk; omega
  | succ n ih =>
    intro k i hk hpre hsucc
    cases k with
    | zero =>
      rw [retryGo, if_neg (show ¬ attemptFlights taxes (outcomes i) = [] from hsucc)]
      simp
    | succ m =>
      have h0 : attemptFlights taxes (outcomes i) = [] := by
        simpa using hpre 0 (Nat.succ_pos m)
      rw [retryGo, if_pos h0]
      have harg : i + 1 + m = i + (m + 1) := by omega
      have hrec := ih m (i + 1) (by omega) (fun j hj => by
        have hh := hpre (j + 1) (by omega)
        rwa [show i + (j + 1) = i + 1 + j from by omega] at hh)
        (by rwa [harg])
      rw [hrec, harg]

/-- Deduplication yields an empty list exactly on the empty list. -/
theorem dedupe_eq_nil_iff (xs : List FlightData) : dedupe xs = [] ↔ xs = [] := by
  cases xs with
  | nil => simp [dedupe, dedupeAux]
  | cons x xs => simp [dedupe, dedupeAux]

/-- C2.  The retry loop reaches the exhausted state after exactly
`maxRetries` consecutive non-success attempts — never fewer, never more —
and reaches success on the first attempt whose flights are nonempty,
performing no further attempts; an attempt has nonempty flights exactly
when its fetch classified OK and the deduplicated extraction is
nonempty. -/
theorem retry_loop_terminal_behavior (taxes : ℚ) (maxRetries : ℕ)
    (outcomes : ℕ → FetchOutcome) :
    ((∀ i, i < maxRetries → attemptFlights taxes (outcomes i) = []) →
      retryRun taxes outcomes maxRetries = .exhausted maxRetries) ∧
    (∀ k, k < maxRetries →
      (∀ i, i < k → attemptFlights taxes (outcomes i) = []) →
      attemptFlights taxes (outcomes k) ≠ [] →
      retryRun taxes outcomes maxRetries =
        .success (attemptFlights taxes (outcomes k)) (k + 1)) ∧
    (∀ o, attemptFlights taxes o ≠ [] ↔
      ∃ doc, o = FetchOutcome.ok doc ∧ dedupe (extractFlights taxes doc) ≠ []) := by
  refine ⟨?_, ?_, ?_⟩
  · intro h
    have hh := retryGo_exhausted_aux taxes outcomes maxRetries 0
      (fun j hj => by simpa using h j hj)
    simpa [retryRun] using hh
  · intro k hk hpre hsucc
    have hh := retryGo_success_aux taxes outcomes maxRetries k 0 hk
      (fun j hj => by simpa using hpre j hj) (by simpa using hsucc)
    simpa [retryRun] using hh
  · intro o
    cases o with
    | timeout => simp [attemptFlights]
    | blocked => simp [attemptFlights]
    | err => simp [attemptFlights]
    | ok doc =>
      simp only [attemptFlights]
      constructor
      · intro h
        exact ⟨doc, rfl, fun hd => h ((dedupe_eq_nil_iff _).mp hd)⟩
      · rintro ⟨doc', heq, hne⟩
        injection heq with heq'
        subst heq'
        intro h
        exact hne (by rw [h]; rfl)

/-- Constant sequence of timed-out attempts, used by the retry witness. -/
def woutc : ℕ → FetchOutcome := fun _ => FetchOutcome.timeout

/-- Witness for the retry-loop claim at a concrete input. -/
theorem retry_loop_terminal_behavior_witness :
    retryRun 6 woutc 2 = .exhausted 2 :=
  (retry_loop_terminal_behavior 6 2 woutc).1 (fun _ _ => rfl)
